import Mathlib

/-!
Verification of the messaging layer `prefect/server/utilities/messaging/__init__.py`.

The module defines an abstract `Cache` (per-topic dedup store), an abstract
`Publisher` with one concrete in-memory implementation (`CapturingPublisher`),
a `Consumer` run-loop contract with a `StopConsumer` stop signal, and resolver
entry points (`create_cache`, `create_publisher`, `create_consumer`,
`ephemeral_subscription`) that import a configured backend module and assert
it exposes the required capability set.

Embedding conventions:
- `bytes` payloads are `List UInt8`; `dict[str, str]` attr mappings are
  association lists `List (String × String)` with first-match lookup (Python
  dict literals have unique keys, so first-match equals dict lookup).
- Python exceptions become `Except`: a raised exception is `.error`, a normal
  return is `.ok`.
- Python truthiness of `Optional[str]` fields (`if self.deduplicate_by:`,
  `cache or create_cache()`) is made explicit: `none` and `some ""` are falsy.
- The concrete cache backend, the concrete consumer run loop, and the concrete
  broker binding machinery are not part of this module (only their abstract
  declarations are); those parts are modelled from the spec, as marked on each
  such definition.
-/

deriving instance DecidableEq for Except

abbrev Bytes := List UInt8

abbrev Attrs := List (String × String)

/-- Lookup of `attributes[key]` on a Python `dict[str, str]`. -/
def getAttr (attributes : Attrs) (key : String) : Option String :=
  List.lookup key attributes

/-- The record captured by the in-memory reference publisher:
`@dataclass class CapturedMessage: data: bytes; attributes: dict[str, str]`. -/
structure CapturedMessage where
  data : Bytes
  attributes : Attrs
deriving DecidableEq, Repr

/-- The usage error raised when a message lacks the dedup attr:
a programmer error that fails fast (spec section 7). -/
inductive UsageError where
  | missingAttribute (attr : String)
deriving DecidableEq, Repr

/-- One topic's store of recently-seen fingerprints, conceptually a set of
strings; represented as a duplicate-free list. -/
abbrev Seen := List String

/-- Modelled from the spec: the concrete `Cache.without_duplicates`
implementation is not under the sources here (only the abstract method
declaration is). Section 4.1 of the spec: for each input message in order,
the fingerprint is `attributes[attr]`; if it has not been marked seen,
mark it and keep the message, otherwise drop it; a message lacking the
attr is a usage error that fails fast. Returns the kept messages in
original order together with the updated seen-state. -/
def without_duplicates (attr : String) :
    List CapturedMessage → Seen → Except UsageError (List CapturedMessage × Seen)
  | [], seen => .ok ([], seen)
  | m :: rest, seen =>
    match getAttr m.attributes attr with
    | none => .error (.missingAttribute attr)
    | some key =>
      if key ∈ seen then
        without_duplicates attr rest seen
      else
        match without_duplicates attr rest (key :: seen) with
        | .error e => .error e
        | .ok (kept, seen1) => .ok (m :: kept, seen1)

/-- Modelled from the spec: the concrete `Cache.forget_duplicates`
implementation is not under the sources here. Section 4.1: unmark each
message's fingerprint as seen so that a later `without_duplicates` treats it
as novel again; a missing dedup attr is a usage error (section 7). -/
def forget_duplicates (attr : String) :
    List CapturedMessage → Seen → Except UsageError Seen
  | [], seen => .ok seen
  | m :: rest, seen =>
    match getAttr m.attributes attr with
    | none => .error (.missingAttribute attr)
    | some key => forget_duplicates attr rest (seen.filter (fun s => s != key))

/-- Modelled from the spec: `clear_recently_seen_messages` resets all
seen-state for the topic. -/
def clear_recently_seen_messages (_seen : Seen) : Seen := []

/-- The dedup-attr values of a message list, in order. -/
def fingerprints (attr : String) (ms : List CapturedMessage) : List String :=
  ms.filterMap (fun m => getAttr m.attributes attr)

/-- A cache handle as constructed by `module.Cache(topic)`: it identifies the
per-topic store it operates on. The spec's data model makes the store
per-topic ("Cache (per-topic dedup store) ... one Cache instance per topic"),
so two handles with the same topic read and write the same seen-state. -/
structure CacheRef where
  topic : String
deriving DecidableEq, Repr

/-- `create_cache(topic: str = "default")`. The Python default argument is
made explicit: `create_cache none` models a call with no argument, which uses
the default topic `"default"`. -/
def create_cache (topic : Option String) : CacheRef :=
  ⟨topic.getD "default"⟩

/-- The process-wide map from topic to that topic's seen fingerprints,
backing every `CacheRef`. -/
abbrev CacheStore := List (String × Seen)

def storeGet (store : CacheStore) (topic : String) : Seen :=
  (List.lookup topic store).getD []

def storeSet (store : CacheStore) (topic : String) (seen : Seen) : CacheStore :=
  (topic, seen) :: store.filter (fun p => p.1 != topic)

/-- `CapturingPublisher`: topic, cache and optional dedup attr, exactly
the fields set by `__init__`. The class-level `messages` list is not a field:
it is process-wide state, held in `World` below. -/
structure CapturingPublisher where
  topic : String
  cache : CacheRef
  deduplicate_by : Option String
deriving DecidableEq, Repr

/-- `CapturingPublisher.__init__(topic, cache=None, deduplicate_by=None)`:
`self.cache = cache or create_cache()` — when no cache is supplied the
default-topic cache is created, ignoring the publisher's own topic. -/
def CapturingPublisher.init (topic : String) (cache : Option CacheRef)
    (deduplicate_by : Option String) : CapturingPublisher :=
  ⟨topic, cache.getD (create_cache none), deduplicate_by⟩

/-- `CapturingPublisher.__aenter__` is `return self`: it changes nothing. -/
def CapturingPublisher.aenter (p : CapturingPublisher) : CapturingPublisher := p

/-- `CapturingPublisher.__aexit__` has body `...` (pass): it changes nothing. -/
def CapturingPublisher.aexit (p : CapturingPublisher) : CapturingPublisher := p

/-- The process-wide mutable state touched by `CapturingPublisher`: the single
class-level `messages` list (shared by every instance, since
`messages: list[CapturedMessage] = []` is a class attr that
`self.messages.extend(...)` mutates in place) and the cache stores. -/
structure World where
  messages : List CapturedMessage
  store : CacheStore
deriving DecidableEq, Repr

/-- Reading the `messages` attr on any `CapturingPublisher` instance
yields the one class-level list: it does not depend on the instance. -/
def CapturingPublisher.messages (_p : CapturingPublisher) (w : World) :
    List CapturedMessage :=
  w.messages

/-- `CapturingPublisher.publish_data(data, attributes)`: build the
single-message batch `[CapturedMessage(data, attributes)]`; if
`self.deduplicate_by` is truthy, filter the batch through
`self.cache.without_duplicates`; extend the shared `messages` sink with
whatever survived. -/
def publish_data (p : CapturingPublisher) (w : World) (data : Bytes)
    (attributes : Attrs) : Except UsageError World :=
  let to_publish := [CapturedMessage.mk data attributes]
  match p.deduplicate_by with
  | none => .ok ⟨w.messages ++ to_publish, w.store⟩
  | some a =>
    if a = "" then .ok ⟨w.messages ++ to_publish, w.store⟩
    else
      match without_duplicates a to_publish (storeGet w.store p.cache.topic) with
      | .error e => .error e
      | .ok (kept, seen1) =>
        .ok ⟨w.messages ++ kept, storeSet w.store p.cache.topic seen1⟩

/-- The outcome of one handler invocation: normal return, `StopConsumer(ack)`,
or any other exception (carried as a string identifier). -/
inductive HandlerOutcome where
  | success
  | stop (ack : Bool)
  | failure (e : String)
deriving DecidableEq, Repr

/-- How a `Consumer.run` invocation ended: returned normally after a stop
signal, propagated a handler exception, or (a modelling artifact of the
finite input stream) ran out of incoming messages. -/
inductive RunResult where
  | stopped
  | failed (e : String)
  | drained
deriving DecidableEq, Repr

/-- Modelled from the spec: `Consumer.run` is abstract in this module
(concrete run loops live in the backend modules, not under the sources here).
Sections 4.3 and 7: pull each message in order and invoke the handler; on
normal return acknowledge and continue; on the stop signal `StopConsumer(ack)`
acknowledge the in-flight message exactly when `ack` is true and return
normally; on any other exception propagate it without acknowledging. Returns
the list of acknowledged messages and how the loop ended. -/
def Consumer.run (handler : CapturedMessage → HandlerOutcome) :
    List CapturedMessage → List CapturedMessage × RunResult
  | [] => ([], .drained)
  | m :: rest =>
    match handler m with
    | .success =>
      let r := Consumer.run handler rest
      (m :: r.1, r.2)
    | .stop true => ([m], .stopped)
    | .stop false => ([], .stopped)
    | .failure e => ([], .failed e)

/-- The attr surface of a resolved Python module, as probed by the
`runtime_checkable` protocols `CacheModule` and `BrokerModule`:
`isinstance(module, Proto)` checks that each declared member is present. -/
structure PyModule where
  hasPublisher : Bool
  hasConsumer : Bool
  hasEphemeralSubscription : Bool
  hasBreakTopic : Bool
  hasCache : Bool
deriving DecidableEq, Repr

/-- `isinstance(module, CacheModule)`: the module exposes `Cache`. -/
def isCacheModule (m : PyModule) : Bool := m.hasCache

/-- `isinstance(module, BrokerModule)`: the module exposes `Publisher`,
`Consumer`, `ephemeral_subscription` and `break_topic`. -/
def isBrokerModule (m : PyModule) : Bool :=
  m.hasPublisher && m.hasConsumer && m.hasEphemeralSubscription && m.hasBreakTopic

/-- The `AssertionError` raised when a resolver's capability assert fails. -/
inductive ResolveError where
  | assertionError
deriving DecidableEq, Repr

/-- `create_cache` including its resolution step: import the configured cache
module, `assert isinstance(module, CacheModule)`, then `module.Cache(topic)`. -/
def create_cache_checked (m : PyModule) (topic : Option String) :
    Except ResolveError CacheRef :=
  if isCacheModule m then .ok (create_cache topic) else .error .assertionError

/-- `create_publisher(topic, cache=None, deduplicate_by=None)`:
`cache = cache or create_cache()` runs first (resolving the cache module when
no cache is supplied), then the broker module is imported and
`assert isinstance(module, BrokerModule)` runs, then
`module.Publisher(topic, cache, deduplicate_by=deduplicate_by)` is returned
(represented here by its constructor arguments). -/
def create_publisher (brokerModule cacheModule : PyModule) (topic : String)
    (cache : Option CacheRef) (deduplicate_by : Option String) :
    Except ResolveError CapturingPublisher :=
  match cache with
  | some c =>
    if isBrokerModule brokerModule then .ok ⟨topic, c, deduplicate_by⟩
    else .error .assertionError
  | none =>
    match create_cache_checked cacheModule none with
    | .error e => .error e
    | .ok c =>
      if isBrokerModule brokerModule then .ok ⟨topic, c, deduplicate_by⟩
      else .error .assertionError

/-- `create_consumer(topic, **kwargs)`: import the broker module,
`assert isinstance(module, BrokerModule)`, and construct the module's
consumer for the topic (represented by its topic). -/
def create_consumer_checked (m : PyModule) (topic : String) :
    Except ResolveError String :=
  if isBrokerModule m then .ok topic else .error .assertionError

/-- The resolution step of `ephemeral_subscription(topic)`: import the broker
module and `assert isinstance(module, BrokerModule)` before delegating to the
module's own scoped subscription. -/
def ephemeral_subscription_checked (m : PyModule) (topic : String) :
    Except ResolveError String :=
  if isBrokerModule m then .ok topic else .error .assertionError

/-- A consumer-side binding (queue/group/subscription) held broker-side,
identified by its topic and a numeric name. -/
structure Binding where
  topic : String
  id : Nat
deriving DecidableEq, Repr

/-- The broker-side resource state: the currently existing bindings. -/
structure BrokerState where
  bindings : List Binding
deriving DecidableEq, Repr

/-- Modelled from the spec: a uniquely-named binding for the topic, with a
numeric name larger than every existing binding's name. -/
def freshBinding (topic : String) (s : BrokerState) : Binding :=
  ⟨topic, (s.bindings.map Binding.id).foldr max 0 + 1⟩

/-- How the body of a scoped resource ended: normal completion or an
exception (carried as a string identifier) raised inside the scope. -/
inductive BodyOutcome where
  | normal
  | raised (e : String)
deriving DecidableEq, Repr

/-- Modelled from the spec: the backend's `ephemeral_subscription(topic)`
context manager is not under the sources here (this module only resolves and
delegates to it). Section 4.5: on entry create a temporary, uniquely-named
consumer-side binding on the topic and yield it to the body; on exit —
whether the body completed normally or raised — delete that binding. The
body's outcome (including a raised exception) passes through unchanged. -/
def ephemeral_subscription (topic : String) (s : BrokerState)
    (body : Binding → BodyOutcome) : BodyOutcome × BrokerState :=
  let b := freshBinding topic s
  let entered : BrokerState := ⟨b :: s.bindings⟩
  (body b, ⟨entered.bindings.erase b⟩)

/-- Example message with dedup value `"abc"`. -/
def cm1 : CapturedMessage := ⟨[0], [("id", "abc")]⟩

/-- A second message with the same dedup value `"abc"` but different payload. -/
def cm2 : CapturedMessage := ⟨[1], [("id", "abc")]⟩

/-- Example message with dedup value `"xyz"`. -/
def cm3 : CapturedMessage := ⟨[2], [("id", "xyz")]⟩

/-- A dedup-enabled publisher as built by
`CapturingPublisher("events", deduplicate_by="id")`. -/
def pubW : CapturingPublisher := CapturingPublisher.init "events" none (some "id")

/-- A publisher with no dedup attr, as built by `CapturingPublisher("events")`. -/
def pubNoDedup : CapturingPublisher := CapturingPublisher.init "events" none none

/-- A concrete handler: stops (with ack) on an empty payload, succeeds
otherwise. -/
def stopHandlerW : CapturedMessage → HandlerOutcome := fun c =>
  if c.data = [] then HandlerOutcome.stop true else HandlerOutcome.success

/-- A broker module exposing the full broker capability set. -/
def brokerFull : PyModule := ⟨true, true, true, true, false⟩

/-- A cache module exposing `Cache`. -/
def cacheFull : PyModule := ⟨false, false, false, false, true⟩

/-- Whether a resolver call succeeded (Python: returned instead of raising). -/
def resolveOk {α : Type} : Except ResolveError α → Bool
  | .ok _ => true
  | .error _ => false

/-- A body for the ephemeral-subscription scope that raises. -/
def bodyRaises : Binding → BodyOutcome := fun _ => BodyOutcome.raised "boom"

theorem fingerprints_cons (attr : String) (m : CapturedMessage)
    (rest : List CapturedMessage) (key : String)
    (hkey : getAttr m.attributes attr = some key) :
    fingerprints attr (m :: rest) = key :: fingerprints attr rest := by
  simp [fingerprints, hkey]

theorem without_duplicates_ok (attr : String) (M : List CapturedMessage) :
    ∀ seen : Seen, (∀ m ∈ M, (getAttr m.attributes attr).isSome) →
    ∃ kept seen1, without_duplicates attr M seen = .ok (kept, seen1) := by
  induction M with
  | nil => intro seen _; exact ⟨[], seen, rfl⟩
  | cons m rest ih =>
    intro seen hall
    obtain ⟨key, hkey⟩ := Option.isSome_iff_exists.mp (hall m (by simp))
    have hrest : ∀ x ∈ rest, (getAttr x.attributes attr).isSome :=
      fun x hx => hall x (by simp [hx])
    by_cases hmem : key ∈ seen
    · obtain ⟨kept, seen1, h⟩ := ih seen hrest
      exact ⟨kept, seen1, by simp [without_duplicates, hkey, hmem, h]⟩
    · obtain ⟨kept, seen1, h⟩ := ih (key :: seen) hrest
      exact ⟨m :: kept, seen1, by simp [without_duplicates, hkey, hmem, h]⟩

theorem without_duplicates_spec_aux (attr : String) (M : List CapturedMessage) :
    ∀ (seen : Seen) (kept : List CapturedMessage) (seen1 : Seen),
      without_duplicates attr M seen = .ok (kept, seen1) →
      kept.Sublist M ∧
      seen1 = (fingerprints attr kept).reverse ++ seen ∧
      (∀ k ∈ fingerprints attr kept, k ∉ seen) ∧
      (fingerprints attr kept).Nodup := by
  induction M with
  | nil =>
    intro seen kept seen1 h
    simp [without_duplicates] at h
    obtain ⟨hk, hs⟩ := h
    subst hk; subst hs
    simp [fingerprints]
  | cons m rest ih =>
    intro seen kept seen1 h
    simp only [without_duplicates] at h
    split at h
    · cases h
    · rename_i key hkey
      split at h
      · rename_i hmem
        obtain ⟨hsub, hseq, hfresh, hnd⟩ := ih seen kept seen1 h
        exact ⟨hsub.cons m, hseq, hfresh, hnd⟩
      · rename_i hmem
        split at h
        · cases h
        · rename_i kept0 seen0 hrec
          simp only [Except.ok.injEq, Prod.mk.injEq] at h
          obtain ⟨hk, hs⟩ := h
          subst hk; subst hs
          obtain ⟨hsub, hseq, hfresh, hnd⟩ := ih (key :: seen) kept0 seen0 hrec
          rw [fingerprints_cons attr m kept0 key hkey]
          refine ⟨hsub.cons₂ m, ?_, ?_, ?_⟩
          · rw [hseq]; simp
          · intro k hk
            rcases List.mem_cons.mp hk with hk | hk
            · subst hk; exact hmem
            · exact fun hks => (hfresh k hk) (List.mem_cons_of_mem key hks)
          · rw [List.nodup_cons]
            exact ⟨fun hkf => (hfresh key hkf) (List.mem_cons_self key seen), hnd⟩

/-- Claim C2: for every attr `A` and list of messages `M` each of which
carries `A`, `without_duplicates A M` succeeds and returns a subsequence of
`M` in original relative order with at most one message per distinct value of
`attributes[A]`; each kept fingerprint was not yet seen and is marked seen
afterwards, so within the retention window (no intervening forget, clear or
expiry) no later `without_duplicates` call ever passes a message bearing a
fingerprint this call passed. -/
theorem without_duplicates_subsequence_nodup (attr : String)
    (M : List CapturedMessage) (seen : Seen)
    (hall : ∀ m ∈ M, (getAttr m.attributes attr).isSome) :
    ∃ kept seen1,
      without_duplicates attr M seen = .ok (kept, seen1) ∧
      kept.Sublist M ∧
      (fingerprints attr kept).Nodup ∧
      (∀ k ∈ fingerprints attr kept, k ∉ seen ∧ k ∈ seen1) ∧
      (∀ M2 kept2 seen2, without_duplicates attr M2 seen1 = .ok (kept2, seen2) →
        ∀ k ∈ fingerprints attr kept, k ∉ fingerprints attr kept2) := by
  obtain ⟨kept, seen1, h⟩ := without_duplicates_ok attr M seen hall
  obtain ⟨hsub, hseq, hfresh, hnd⟩ := without_duplicates_spec_aux attr M seen kept seen1 h
  refine ⟨kept, seen1, h, hsub, hnd, ?_, ?_⟩
  · intro k hk
    refine ⟨hfresh k hk, ?_⟩
    rw [hseq]
    simp [hk]
  · intro M2 kept2 seen2 h2 k hk hk2
    obtain ⟨_, _, hfresh2, _⟩ := without_duplicates_spec_aux attr M2 seen1 kept2 seen2 h2
    exact hfresh2 k hk2 (by rw [hseq]; simp [hk])

/-- Witness for C2 at attr `"id"`, messages `[cm1, cm2]` (both carrying
`"id"`) and empty seen-state. -/
theorem without_duplicates_subsequence_nodup_witness :
    (∀ m ∈ [cm1, cm2], (getAttr m.attributes "id").isSome) ∧
    (∃ kept seen1,
      without_duplicates "id" [cm1, cm2] [] = .ok (kept, seen1) ∧
      kept.Sublist [cm1, cm2] ∧
      (fingerprints "id" kept).Nodup ∧
      (∀ k ∈ fingerprints "id" kept, k ∉ ([] : Seen) ∧ k ∈ seen1) ∧
      (∀ M2 kept2 seen2, without_duplicates "id" M2 seen1 = .ok (kept2, seen2) →
        ∀ k ∈ fingerprints "id" kept, k ∉ fingerprints "id" kept2)) :=
  ⟨by decide, without_duplicates_subsequence_nodup "id" [cm1, cm2] [] (by decide)⟩

theorem forget_duplicates_ok (attr : String) (M : List CapturedMessage) :
    ∀ seen : Seen, (∀ m ∈ M, (getAttr m.attributes attr).isSome) →
    ∃ seen1, forget_duplicates attr M seen = .ok seen1 ∧
      seen1 ⊆ seen ∧ ∀ k ∈ fingerprints attr M, k ∉ seen1 := by
  induction M with
  | nil =>
    intro seen _
    exact ⟨seen, rfl, fun _ h => h, by simp [fingerprints]⟩
  | cons m rest ih =>
    intro seen hall
    obtain ⟨key, hkey⟩ := Option.isSome_iff_exists.mp (hall m (by simp))
    obtain ⟨seen1, h, hsub, hnot⟩ :=
      ih (seen.filter (fun s => s != key)) (fun x hx => hall x (by simp [hx]))
    refine ⟨seen1, by simp [forget_duplicates, hkey, h], ?_, ?_⟩
    · exact hsub.trans (List.filter_sublist _).subset
    · intro k hk
      rw [fingerprints_cons attr m rest key hkey] at hk
      rcases List.mem_cons.mp hk with hk | hk
      · subst hk
        intro hmem
        have := hsub hmem
        simp [List.mem_filter] at this
      · exact hnot k hk

theorem without_duplicates_keeps_fresh (attr : String) (M : List CapturedMessage) :
    ∀ seen : Seen,
      (∀ m ∈ M, (getAttr m.attributes attr).isSome) →
      (fingerprints attr M).Nodup →
      (∀ k ∈ fingerprints attr M, k ∉ seen) →
      ∃ seen1, without_duplicates attr M seen = .ok (M, seen1) := by
  induction M with
  | nil => intro seen _ _ _; exact ⟨seen, rfl⟩
  | cons m rest ih =>
    intro seen hall hnd hfresh
    obtain ⟨key, hkey⟩ := Option.isSome_iff_exists.mp (hall m (by simp))
    rw [fingerprints_cons attr m rest key hkey] at hnd hfresh
    have hkm : key ∉ seen := hfresh key (by simp)
    have hnd' := List.nodup_cons.mp hnd
    have hfresh' : ∀ k ∈ fingerprints attr rest, k ∉ key :: seen := by
      intro k hk hmem
      rcases List.mem_cons.mp hmem with he | he
      · exact hnd'.1 (he ▸ hk)
      · exact hfresh k (by simp [hk]) he
    obtain ⟨seen1, h⟩ := ih (key :: seen) (fun x hx => hall x (by simp [hx])) hnd'.2 hfresh'
    exact ⟨seen1, by simp [without_duplicates, hkey, hkm, h]⟩

/-- Claim C4 counterexample: with `M = [cm1, cm2]`, two messages sharing the
dedup value `"abc"` and that value marked seen, `forget_duplicates` followed
by `without_duplicates` on the same `M` returns only `[cm1]`, not all of `M`:
the second occurrence of the shared fingerprint is dropped by the same call
that re-marks it. -/
theorem forget_roundtrip_counterexample :
    forget_duplicates "id" [cm1, cm2] ["abc"] = .ok [] ∧
    without_duplicates "id" [cm1, cm2] [] = .ok ([cm1], ["abc"]) ∧
    ([cm1] : List CapturedMessage) ≠ [cm1, cm2] := by decide

/-- Claim C4 (amended): for every attr `A`, seen-state, and list of messages
`M` that all carry `A` with pairwise-distinct fingerprints, calling
`forget_duplicates A M` and then immediately `without_duplicates A M` returns
all of `M`, regardless of which of `M`'s fingerprints had previously been
marked seen. (The original universally quantified claim fails when `M` itself
repeats a fingerprint: the round trip then keeps only the first occurrence.) -/
theorem forget_roundtrip_distinct_keys (attr : String) (M : List CapturedMessage)
    (seen : Seen) (hall : ∀ m ∈ M, (getAttr m.attributes attr).isSome)
    (hnd : (fingerprints attr M).Nodup) :
    ∃ seen1 seen2, forget_duplicates attr M seen = .ok seen1 ∧
      without_duplicates attr M seen1 = .ok (M, seen2) := by
  obtain ⟨seen1, h1, _, hnot⟩ := forget_duplicates_ok attr M seen hall
  obtain ⟨seen2, h2⟩ := without_duplicates_keeps_fresh attr M seen1 hall hnd hnot
  exact ⟨seen1, seen2, h1, h2⟩

/-- Witness for the amended C4 at attr `"id"`, messages `[cm1, cm3]` (distinct
fingerprints `"abc"` and `"xyz"`, both previously marked seen). -/
theorem forget_roundtrip_distinct_keys_witness :
    (∀ m ∈ [cm1, cm3], (getAttr m.attributes "id").isSome) ∧
    (fingerprints "id" [cm1, cm3]).Nodup ∧
    (∃ seen1 seen2, forget_duplicates "id" [cm1, cm3] ["abc", "xyz"] = .ok seen1 ∧
      without_duplicates "id" [cm1, cm3] seen1 = .ok ([cm1, cm3], seen2)) :=
  ⟨by decide, by decide,
    forget_roundtrip_distinct_keys "id" [cm1, cm3] ["abc", "xyz"] (by decide) (by decide)⟩

/-- Claim C5 counterexample: `[cm1, cm2]` share the fingerprint `"abc"`; with
that value seen, both are filtered out. After `clear_recently_seen_messages`,
`without_duplicates` on the same list returns only `[cm1]`, not all of `M`:
the clear resets the store, but the in-list repeat is still dropped. -/
theorem clear_roundtrip_counterexample :
    without_duplicates "id" [cm1, cm2] ["abc"] = .ok ([], ["abc"]) ∧
    without_duplicates "id" [cm1, cm2] (clear_recently_seen_messages ["abc"]) =
      .ok ([cm1], ["abc"]) ∧
    ([cm1] : List CapturedMessage) ≠ [cm1, cm2] := by decide

/-- Claim C5 (amended): for every attr `A` and list of messages `M` that were
previously filtered out as duplicates, carry `A`, and have pairwise-distinct
fingerprints, `clear_recently_seen_messages ()` followed by
`without_duplicates A M` returns all of `M` again: the clear resets the
entire seen-state of the topic's store. (The original claim fails when `M`
itself repeats a fingerprint: only the first occurrence comes back.) -/
theorem clear_then_without_duplicates_restores (attr : String)
    (M : List CapturedMessage) (seen : Seen)
    (hall : ∀ m ∈ M, (getAttr m.attributes attr).isSome)
    (hnd : (fingerprints attr M).Nodup)
    (_hprev : without_duplicates attr M seen = .ok ([], seen)) :
    ∃ seen2,
      without_duplicates attr M (clear_recently_seen_messages seen) = .ok (M, seen2) := by
  obtain ⟨seen2, h⟩ := without_duplicates_keeps_fresh attr M
    (clear_recently_seen_messages seen) hall hnd (by simp [clear_recently_seen_messages])
  exact ⟨seen2, h⟩

/-- Witness for the amended C5 at attr `"id"`, messages `[cm1, cm3]`, with
both fingerprints seen so that the whole list was previously filtered out. -/
theorem clear_then_without_duplicates_restores_witness :
    (∀ m ∈ [cm1, cm3], (getAttr m.attributes "id").isSome) ∧
    (fingerprints "id" [cm1, cm3]).Nodup ∧
    without_duplicates "id" [cm1, cm3] ["abc", "xyz"] = .ok ([], ["abc", "xyz"]) ∧
    (∃ seen2, without_duplicates "id" [cm1, cm3]
      (clear_recently_seen_messages ["abc", "xyz"]) = .ok ([cm1, cm3], seen2)) :=
  ⟨by decide, by decide, by decide,
    clear_then_without_duplicates_restores "id" [cm1, cm3] ["abc", "xyz"]
      (by decide) (by decide) (by decide)⟩

theorem storeGet_storeSet (store : CacheStore) (topic : String) (seen : Seen) :
    storeGet (storeSet store topic seen) topic = seen := by
  simp [storeGet, storeSet, List.lookup]

theorem publish_data_dedup_eval (p : CapturingPublisher) (w : World) (data : Bytes)
    (attrs : Attrs) (a k : String) (hd : p.deduplicate_by = some a) (ha : a ≠ "")
    (hk : getAttr attrs a = some k) :
    publish_data p w data attrs =
      if k ∈ storeGet w.store p.cache.topic then
        .ok ⟨w.messages, storeSet w.store p.cache.topic (storeGet w.store p.cache.topic)⟩
      else
        .ok ⟨w.messages ++ [⟨data, attrs⟩],
          storeSet w.store p.cache.topic (k :: storeGet w.store p.cache.topic)⟩ := by
  by_cases hmem : k ∈ storeGet w.store p.cache.topic <;>
    simp [publish_data, hd, ha, without_duplicates, hk, hmem]

/-- Claim C1: for every payload and attr mapping, a `CapturingPublisher` with
no dedup attr configured hands exactly the one message to the sink; one with
a (truthy) dedup attr `a` first runs `without_duplicates` on the singleton
batch: if the fingerprint is already seen the call returns `.ok` with the
sink untouched, otherwise exactly that one message is appended (and the
fingerprint is marked seen); consequently two publishes with the same
fingerprint deliver exactly one message. -/
theorem publish_data_dedup_correct (p : CapturingPublisher) (w : World)
    (data : Bytes) (attrs : Attrs) (a k : String) :
    (p.deduplicate_by = none →
      publish_data p w data attrs = .ok ⟨w.messages ++ [⟨data, attrs⟩], w.store⟩) ∧
    (p.deduplicate_by = some a → a ≠ "" → getAttr attrs a = some k →
      ((k ∈ storeGet w.store p.cache.topic →
          ∃ w1, publish_data p w data attrs = .ok w1 ∧ w1.messages = w.messages) ∧
       (k ∉ storeGet w.store p.cache.topic →
          ∃ w1, publish_data p w data attrs = .ok w1 ∧
            w1.messages = w.messages ++ [⟨data, attrs⟩] ∧
            w1.store = storeSet w.store p.cache.topic
              (k :: storeGet w.store p.cache.topic)) ∧
       (∀ data2 attrs2, getAttr attrs2 a = some k →
          k ∉ storeGet w.store p.cache.topic →
          ∃ w1 w2, publish_data p w data attrs = .ok w1 ∧
            publish_data p w1 data2 attrs2 = .ok w2 ∧
            w2.messages = w.messages ++ [⟨data, attrs⟩]))) := by
  constructor
  · intro hd
    simp [publish_data, hd]
  · intro hd ha hk
    refine ⟨?_, ?_, ?_⟩
    · intro hmem
      rw [publish_data_dedup_eval p w data attrs a k hd ha hk, if_pos hmem]
      exact ⟨_, rfl, rfl⟩
    · intro hmem
      refine ⟨⟨w.messages ++ [⟨data, attrs⟩],
        storeSet w.store p.cache.topic (k :: storeGet w.store p.cache.topic)⟩, ?_, rfl, rfl⟩
      rw [publish_data_dedup_eval p w data attrs a k hd ha hk, if_neg hmem]
    · intro data2 attrs2 hk2 hmem
      have hcond : k ∈ storeGet (storeSet w.store p.cache.topic
          (k :: storeGet w.store p.cache.topic)) p.cache.topic := by
        rw [storeGet_storeSet]
        exact List.mem_cons_self k _
      refine ⟨⟨w.messages ++ [⟨data, attrs⟩],
          storeSet w.store p.cache.topic (k :: storeGet w.store p.cache.topic)⟩,
        ⟨w.messages ++ [⟨data, attrs⟩],
          storeSet (storeSet w.store p.cache.topic (k :: storeGet w.store p.cache.topic))
            p.cache.topic (storeGet (storeSet w.store p.cache.topic
              (k :: storeGet w.store p.cache.topic)) p.cache.topic)⟩, ?_, ?_, rfl⟩
      · rw [publish_data_dedup_eval p w data attrs a k hd ha hk, if_neg hmem]
      · rw [publish_data_dedup_eval p _ data2 attrs2 a k hd ha hk2, if_pos hcond]

/-- Witness for C1: a dedup-enabled publisher (`deduplicate_by="id"`),
starting from an empty world, publishing two payloads that share the
fingerprint `"abc"` delivers exactly the first message. -/
theorem publish_data_dedup_correct_witness :
    pubW.deduplicate_by = some "id" ∧
    ∃ w1 w2, publish_data pubW ⟨[], []⟩ [0] [("id", "abc")] = .ok w1 ∧
      publish_data pubW w1 [1] [("id", "abc")] = .ok w2 ∧
      w2.messages = [] ++ [⟨[0], [("id", "abc")]⟩] := by
  refine ⟨rfl, ?_⟩
  have h := (publish_data_dedup_correct pubW ⟨[], []⟩ [0] [("id", "abc")] "id" "abc").2
  exact (h rfl (by decide) (by decide)).2.2 [1] [("id", "abc")] (by decide) (by decide)

/-- Claim C3 counterexample: a freshly constructed `CapturingPublisher` whose
scope was never entered — and equally one whose scope has been entered and
exited — completes `publish_data` without raising and delivers the message,
instead of failing fast. -/
theorem publish_outside_scope_counterexample :
    publish_data pubNoDedup ⟨[], []⟩ [0] [("id", "abc")] =
      .ok ⟨[⟨[0], [("id", "abc")]⟩], []⟩ ∧
    publish_data (pubNoDedup.aenter.aexit) ⟨[], []⟩ [0] [("id", "abc")] =
      .ok ⟨[⟨[0], [("id", "abc")]⟩], []⟩ := by decide

/-- Claim C3 (amended): `CapturingPublisher` does not enforce its scope.
`__aenter__` and `__aexit__` leave the publisher unchanged, so `publish_data`
behaves identically before entry, inside the scope, and after exit; in
particular (for a publisher with no dedup attr) it completes without raising
and still delivers the message rather than failing fast. -/
theorem publish_outside_scope_not_enforced (p : CapturingPublisher) (w : World)
    (data : Bytes) (attrs : Attrs) :
    publish_data p.aenter w data attrs = publish_data p w data attrs ∧
    publish_data p.aexit w data attrs = publish_data p w data attrs ∧
    (p.deduplicate_by = none →
      publish_data p w data attrs = .ok ⟨w.messages ++ [⟨data, attrs⟩], w.store⟩) := by
  refine ⟨rfl, rfl, fun hd => ?_⟩
  simp [publish_data, hd]

/-- Witness for the amended C3 at a concrete no-dedup publisher. -/
theorem publish_outside_scope_not_enforced_witness :
    pubNoDedup.deduplicate_by = none ∧
    publish_data pubNoDedup ⟨[], []⟩ [0] [] = .ok ⟨[] ++ [⟨[0], []⟩], []⟩ :=
  ⟨rfl, (publish_outside_scope_not_enforced pubNoDedup ⟨[], []⟩ [0] []).2.2 rfl⟩

theorem without_duplicates_singleton (attr : String) (m : CapturedMessage)
    (seen : Seen) (kept : List CapturedMessage) (seen1 : Seen)
    (h : without_duplicates attr [m] seen = .ok (kept, seen1)) :
    kept = [] ∨ kept = [m] := by
  simp only [without_duplicates] at h
  split at h
  · cases h
  · split at h
    · simp only [Except.ok.injEq, Prod.mk.injEq] at h
      exact Or.inl h.1.symm
    · simp only [without_duplicates, Except.ok.injEq, Prod.mk.injEq] at h
      exact Or.inr h.1.symm

/-- Claim C7: every `CapturingPublisher` instance appends to the one
process-wide class-level `messages` list: whenever `publish_data` on `p`
captures a message (the sink changed), that message is visible through the
`messages` attr of any other instance `q`, whatever its topic, because
reading `messages` on any instance yields the same shared list. -/
theorem capturing_publisher_shared_sink (p q : CapturingPublisher) (w w1 : World)
    (data : Bytes) (attrs : Attrs)
    (h : publish_data p w data attrs = .ok w1) (hcap : w1.messages ≠ w.messages) :
    CapturingPublisher.messages q w1 = w1.messages ∧
    CapturedMessage.mk data attrs ∈ CapturingPublisher.messages q w1 := by
  refine ⟨rfl, ?_⟩
  show CapturedMessage.mk data attrs ∈ w1.messages
  simp only [publish_data] at h
  split at h
  · simp only [Except.ok.injEq] at h
    subst h
    simp
  · split at h
    · simp only [Except.ok.injEq] at h
      subst h
      simp
    · split at h
      · cases h
      · rename_i kept seen1 hrec
        simp only [Except.ok.injEq] at h
        subst h
        rcases without_duplicates_singleton _ _ _ _ _ hrec with hke | hke
        · subst hke
          simp at hcap
        · subst hke
          simp

/-- Witness for C7: two publishers on different topics; a message published
through the first is visible through the second's `messages` attr. -/
theorem capturing_publisher_shared_sink_witness :
    publish_data (CapturingPublisher.init "topic-a" none none) ⟨[], []⟩ [0] [] =
      .ok ⟨[⟨[0], []⟩], []⟩ ∧
    (⟨[⟨[0], []⟩], []⟩ : World).messages ≠ (⟨[], []⟩ : World).messages ∧
    CapturedMessage.mk [0] [] ∈
      CapturingPublisher.messages (CapturingPublisher.init "topic-b" none none)
        ⟨[⟨[0], []⟩], []⟩ :=
  ⟨by decide, by decide,
    (capturing_publisher_shared_sink (CapturingPublisher.init "topic-a" none none)
      (CapturingPublisher.init "topic-b" none none) ⟨[], []⟩ ⟨[⟨[0], []⟩], []⟩
      [0] [] (by decide) (by decide)).2⟩

/-- Claim C8: with no cache argument, both `CapturingPublisher.__init__` and
`create_publisher` build their cache via `create_cache()` with its default
topic `"default"` — not the publisher's own topic — so two publishers for
different topics without explicit caches operate on one shared
`"default"`-topic dedup store: a fingerprint published through the first is
treated as a duplicate when published through the second. -/
theorem default_cache_topic_shared (t1 t2 a k : String) (d1 d2 : Bytes)
    (attrs1 attrs2 : Attrs) (w : World)
    (ha : a ≠ "") (h1 : getAttr attrs1 a = some k) (h2 : getAttr attrs2 a = some k)
    (hfresh : k ∉ storeGet w.store "default") :
    (CapturingPublisher.init t1 none (some a)).cache = create_cache none ∧
    create_publisher brokerFull cacheFull t1 none (some a) =
      .ok ⟨t1, create_cache none, some a⟩ ∧
    create_cache none = ⟨"default"⟩ ∧
    ∃ w1 w2,
      publish_data (CapturingPublisher.init t1 none (some a)) w d1 attrs1 = .ok w1 ∧
      publish_data (CapturingPublisher.init t2 none (some a)) w1 d2 attrs2 = .ok w2 ∧
      w1.messages = w.messages ++ [⟨d1, attrs1⟩] ∧
      w2.messages = w1.messages := by
  refine ⟨rfl, rfl, rfl, ?_⟩
  have htopic1 : (CapturingPublisher.init t1 none (some a)).cache.topic = "default" := rfl
  have htopic2 : (CapturingPublisher.init t2 none (some a)).cache.topic = "default" := rfl
  have hcond : k ∈ storeGet (storeSet w.store "default" (k :: storeGet w.store "default"))
      "default" := by
    rw [storeGet_storeSet]
    exact List.mem_cons_self k _
  refine ⟨⟨w.messages ++ [⟨d1, attrs1⟩],
      storeSet w.store "default" (k :: storeGet w.store "default")⟩,
    ⟨w.messages ++ [⟨d1, attrs1⟩],
      storeSet (storeSet w.store "default" (k :: storeGet w.store "default"))
        "default" (storeGet (storeSet w.store "default" (k :: storeGet w.store "default"))
          "default")⟩, ?_, ?_, rfl, rfl⟩
  · rw [publish_data_dedup_eval (CapturingPublisher.init t1 none (some a)) w d1 attrs1
      a k rfl ha h1]
    rw [htopic1, if_neg hfresh]
  · rw [publish_data_dedup_eval (CapturingPublisher.init t2 none (some a)) _ d2 attrs2
      a k rfl ha h2]
    rw [htopic2, if_pos hcond]

/-- Witness for C8: publishers for topics `"topic-a"` and `"topic-b"`, no
explicit cache, dedup attr `"id"`, same fingerprint `"abc"`. -/
theorem default_cache_topic_shared_witness :
    ("id" : String) ≠ "" ∧
    getAttr [("id", "abc")] "id" = some "abc" ∧
    ("abc" ∉ storeGet ([] : CacheStore) "default") ∧
    ∃ w1 w2,
      publish_data (CapturingPublisher.init "topic-a" none (some "id")) ⟨[], []⟩
        [0] [("id", "abc")] = .ok w1 ∧
      publish_data (CapturingPublisher.init "topic-b" none (some "id")) w1
        [1] [("id", "abc")] = .ok w2 ∧
      w1.messages = [] ++ [⟨[0], [("id", "abc")]⟩] ∧
      w2.messages = w1.messages :=
  ⟨by decide, by decide, by decide,
    (default_cache_topic_shared "topic-a" "topic-b" "id" "abc" [0] [1]
      [("id", "abc")] [("id", "abc")] ⟨[], []⟩
      (by decide) (by decide) (by decide) (by decide)).2.2.2⟩

/-- Claim C6: for every handler that raises the stop signal with a boolean
`ack` on the message it reaches (after succeeding on all earlier messages),
`Consumer.run` returns normally (result `.stopped`, no propagated
exception); the in-flight message is acknowledged exactly when `ack` is
true, and the remainder of the stream is not consumed. -/
theorem run_stop_signal_graceful (handler : CapturedMessage → HandlerOutcome)
    (pre : List CapturedMessage) (m : CapturedMessage) (rest : List CapturedMessage)
    (ack : Bool) (hpre : ∀ x ∈ pre, handler x = .success)
    (hm : handler m = .stop ack) :
    Consumer.run handler (pre ++ m :: rest) =
      (if ack then pre ++ [m] else pre, .stopped) := by
  induction pre with
  | nil =>
    cases ack <;> simp [Consumer.run, hm]
  | cons x xs ih =>
    have hx : handler x = .success := hpre x (by simp)
    have ih2 := ih (fun y hy => hpre y (by simp [hy]))
    cases ack <;> simp_all [Consumer.run]

/-- Witness for C6: a handler that stops with `ack=true` on the empty payload
after succeeding on `cm1`; the run ends `.stopped` with both messages acked
and the rest of the stream untouched. -/
theorem run_stop_signal_graceful_witness :
    (∀ x ∈ [cm1], stopHandlerW x = .success) ∧
    stopHandlerW ⟨[], []⟩ = .stop true ∧
    Consumer.run stopHandlerW ([cm1] ++ ⟨[], []⟩ :: [cm3]) =
      (if true then [cm1] ++ [⟨[], []⟩] else [cm1], .stopped) :=
  ⟨by decide, by decide,
    run_stop_signal_graceful stopHandlerW [cm1] ⟨[], []⟩ [cm3] true
      (by decide) (by decide)⟩

/-- Claim C9: each resolver entry point checks the full capability set of the
module resolved from the configured name and raises `AssertionError` when the
check fails: `create_cache` requires `Cache`; `create_publisher` (which also
resolves a cache when none is passed), `create_consumer` and
`ephemeral_subscription` require the broker set `Publisher`, `Consumer`,
`ephemeral_subscription` and `break_topic` in full. -/
theorem resolver_capability_checks (bm cm : PyModule) (t : String) (c : CacheRef)
    (dd : Option String) :
    (resolveOk (create_cache_checked cm none) = isCacheModule cm) ∧
    (resolveOk (create_publisher bm cm t (some c) dd) = isBrokerModule bm) ∧
    (resolveOk (create_publisher bm cm t none dd) =
      (isCacheModule cm && isBrokerModule bm)) ∧
    (resolveOk (create_consumer_checked bm t) = isBrokerModule bm) ∧
    (resolveOk (ephemeral_subscription_checked bm t) = isBrokerModule bm) ∧
    (isBrokerModule bm = true ↔
      (bm.hasPublisher = true ∧ bm.hasConsumer = true ∧
       bm.hasEphemeralSubscription = true ∧ bm.hasBreakTopic = true)) := by
  refine ⟨?_, ?_, ?_, ?_, ?_, ?_⟩
  · by_cases h : isCacheModule cm <;> simp [create_cache_checked, resolveOk, h]
  · by_cases h : isBrokerModule bm <;> simp [create_publisher, resolveOk, h]
  · by_cases h1 : isCacheModule cm <;> by_cases h2 : isBrokerModule bm <;>
      simp [create_publisher, create_cache_checked, resolveOk, h1, h2]
  · by_cases h : isBrokerModule bm <;> simp [create_consumer_checked, resolveOk, h]
  · by_cases h : isBrokerModule bm <;> simp [ephemeral_subscription_checked, resolveOk, h]
  · simp only [isBrokerModule, Bool.and_eq_true]
    tauto

theorem mem_le_foldr_max (n : Nat) (l : List Nat) (h : n ∈ l) : n ≤ l.foldr max 0 := by
  induction l with
  | nil => cases h
  | cons x xs ih =>
    rcases List.mem_cons.mp h with h | h
    · subst h
      exact Nat.le_max_left _ _
    · exact Nat.le_trans (ih h) (Nat.le_max_right _ _)

theorem freshBinding_not_mem (topic : String) (s : BrokerState) :
    freshBinding topic s ∉ s.bindings := by
  intro h
  have hmap : (freshBinding topic s).id ∈ s.bindings.map Binding.id :=
    List.mem_map_of_mem Binding.id h
  have hle := mem_le_foldr_max _ _ hmap
  simp only [freshBinding] at hle
  omega

/-- Claim C10: entering `ephemeral_subscription(topic)` creates a temporary,
previously non-existent consumer-side binding on the topic and hands it to
the body; on exit — whether the body completed normally or raised — the
binding is deleted, leaving the broker's bindings exactly as before, so no
broker-side resource leaks; the body's outcome (including any raised
exception) passes through unchanged. -/
theorem ephemeral_subscription_no_leak (topic : String) (s : BrokerState)
    (body : Binding → BodyOutcome) :
    (ephemeral_subscription topic s body).2 = s ∧
    freshBinding topic s ∉ s.bindings ∧
    (freshBinding topic s).topic = topic ∧
    (ephemeral_subscription topic s body).1 = body (freshBinding topic s) ∧
    (∀ e, body (freshBinding topic s) = .raised e →
      (ephemeral_subscription topic s body).2 = s) := by
  have herase : (ephemeral_subscription topic s body).2 = s := by
    show (⟨(freshBinding topic s :: s.bindings).erase (freshBinding topic s)⟩ : BrokerState) = s
    rw [List.erase_cons_head]
  exact ⟨herase, freshBinding_not_mem topic s, rfl, rfl, fun _ _ => herase⟩

/-- Witness for C10: a scope on topic `"events"` over a broker already holding
one binding, whose body raises; the binding set is restored and the raised
outcome passes through. -/
theorem ephemeral_subscription_no_leak_witness :
    (ephemeral_subscription "events" ⟨[⟨"events", 1⟩]⟩ bodyRaises).2 =
      (⟨[⟨"events", 1⟩]⟩ : BrokerState) ∧
    freshBinding "events" ⟨[⟨"events", 1⟩]⟩ ∉
      (⟨[⟨"events", 1⟩]⟩ : BrokerState).bindings ∧
    (ephemeral_subscription "events" ⟨[⟨"events", 1⟩]⟩ bodyRaises).1 =
      BodyOutcome.raised "boom" := by
  have h := ephemeral_subscription_no_leak "events" ⟨[⟨"events", 1⟩]⟩ bodyRaises
  exact ⟨h.1, h.2.1, h.2.2.2.1⟩
